import Mathlib

set_option maxHeartbeats 1000000

/-!
Verification development for the MOABB evaluation-and-caching engine.

The repository ships one concrete source file,
examples/plot_within_session_p300.py, which defines the Vectorizer
transformer and the fixed label dictionary and drives the engine
(WithinSessionEvaluation with an overwrite flag and a result store).
The engine, store and signature builder themselves are described by the
design document; where their code is not in the source tree they are
modelled here directly from that document, each such definition marked
"Modelled from the spec".
-/

/-- Modelled from the spec: a parameter value of a pipeline step
(data model section 3: scalars, strings, small enumerations). -/
inductive PValue where
  | num (n : Int)
  | str (s : String)
  | flag (b : Bool)
deriving DecidableEq

/-- Modelled from the spec: a step is either a transform or the final
estimator (data model section 3). -/
inductive StepKind where
  | transform
  | estimator
deriving DecidableEq

/-- Modelled from the spec: a named step with a kind and a mapping of
parameter name to value, kept in insertion order. -/
structure Step where
  name : String
  kind : StepKind
  params : List (String × PValue)
deriving DecidableEq

/-- Modelled from the spec: a Pipeline is an ordered sequence of named
steps (data model section 3). -/
abbrev Pipeline := List Step

/-- Lexicographic strict comparison of character lists by code point,
used to order parameter names during canonicalization. -/
def lexLtB : List Char → List Char → Bool
  | [], [] => false
  | [], _ :: _ => true
  | _ :: _, [] => false
  | a :: as, b :: bs =>
      if a.toNat < b.toNat then true
      else if b.toNat < a.toNat then false
      else lexLtB as bs

theorem lexLtB_asymm : ∀ l m, lexLtB l m = true → lexLtB m l = false := by
  intro l
  induction l with
  | nil => intro m h; cases m <;> simp [lexLtB] at h ⊢
  | cons a as ih =>
      intro m h
      cases m with
      | nil => simp [lexLtB] at h
      | cons b bs =>
          simp only [lexLtB] at h ⊢
          split_ifs at h ⊢ <;>
            first
              | rfl
              | (exact ih bs h)
              | (exfalso; omega)

theorem lexLtB_irrefl : ∀ l, lexLtB l l = false := by
  intro l
  induction l with
  | nil => rfl
  | cons a as ih => simp [lexLtB, ih]

theorem lexLtB_trans : ∀ l m n, lexLtB l m = true → lexLtB m n = true →
    lexLtB l n = true := by
  intro l
  induction l with
  | nil =>
      intro m n h1 h2
      cases m with
      | nil => exact absurd h1 (by simp [lexLtB])
      | cons b bs => cases n with
        | nil => exact absurd h2 (by simp [lexLtB])
        | cons c cs => simp [lexLtB]
  | cons a as ih =>
      intro m n h1 h2
      cases m with
      | nil => exact absurd h1 (by simp [lexLtB])
      | cons b bs =>
          cases n with
          | nil => exact absurd h2 (by simp [lexLtB])
          | cons c cs =>
              simp only [lexLtB] at h1 h2 ⊢
              split_ifs at h1 h2 ⊢ <;>
                first
                  | rfl
                  | (exact ih bs cs h1 h2)
                  | exact Bool.noConfusion h1
                  | exact Bool.noConfusion h2
                  | (exfalso; omega)

theorem char_eq_of_toNat_eq {a b : Char} (h : a.toNat = b.toNat) : a = b := by
  apply Char.ext
  apply UInt32.eq_of_val_eq
  apply Fin.ext
  exact h

theorem lexLtB_conn : ∀ l m, lexLtB l m = false → lexLtB m l = false → l = m := by
  intro l
  induction l with
  | nil =>
      intro m h1 _
      cases m with
      | nil => rfl
      | cons b bs => exact absurd h1 (by simp [lexLtB])
  | cons a as ih =>
      intro m h1 h2
      cases m with
      | nil => exact absurd h2 (by simp [lexLtB])
      | cons b bs =>
          simp only [lexLtB] at h1 h2
          split_ifs at h1 h2 with h3 h4
          all_goals
            first
              | exact Bool.noConfusion h1
              | exact Bool.noConfusion h2
              | (have hab : a = b := char_eq_of_toNat_eq (by omega)
                 have htl : as = bs := ih bs h1 h2
                 rw [hab, htl])

/-- Strict order on parameter names, kernel-computable. -/
def keyLtB (a b : String) : Bool := lexLtB a.data b.data

/-- Reflexive order on parameter names, kernel-computable. -/
def keyLeB (a b : String) : Bool := !(keyLtB b a)

theorem string_eq_of_data_eq {a b : String} (h : a.data = b.data) : a = b := by
  cases a
  cases b
  simp only at h
  simp [h]

theorem keyLeB_of_ne_of_not_lt {a b : String} (hne : a ≠ b)
    (h : keyLtB a b = false) : keyLtB b a = true := by
  cases hq : keyLtB b a with
  | true => rfl
  | false =>
      have hd : a.data = b.data := lexLtB_conn _ _ h hq
      exact absurd (string_eq_of_data_eq hd) hne

/-- Order on parameter entries by parameter name, used to canonicalize
a step's parameter mapping. -/
def paramLE (a b : String × PValue) : Prop := keyLeB a.1 b.1 = true

instance : DecidableRel paramLE := fun a b =>
  inferInstanceAs (Decidable (keyLeB a.1 b.1 = true))

instance : IsTotal (String × PValue) paramLE := by
  refine ⟨fun a b => ?_⟩
  by_cases h : keyLtB b.1 a.1 = true
  · right
    have := lexLtB_asymm _ _ h
    simp [paramLE, keyLeB, keyLtB, this]
  · left
    simp only [Bool.not_eq_true] at h
    simp [paramLE, keyLeB, keyLtB] at h ⊢
    exact h

theorem lexLtB_not_lt_trans {l m n : List Char} (h1 : lexLtB m l = false)
    (h2 : lexLtB n m = false) : lexLtB n l = false := by
  cases hq : lexLtB n l with
  | false => rfl
  | true =>
      exfalso
      cases hmn : lexLtB m n with
      | false =>
          have hemn : m = n := lexLtB_conn m n hmn h2
          rw [hemn] at h1
          rw [hq] at h1
          cases h1
      | true =>
          cases hlm : lexLtB l m with
          | false =>
              have helm : l = m := lexLtB_conn l m hlm h1
              rw [← helm] at h2
              rw [hq] at h2
              cases h2
          | true =>
              have hln : lexLtB l n = true := lexLtB_trans l m n hlm hmn
              have hll : lexLtB l l = true := lexLtB_trans l n l hln hq
              rw [lexLtB_irrefl l] at hll
              cases hll

instance : IsTrans (String × PValue) paramLE := by
  refine ⟨fun a b c h1 h2 => ?_⟩
  simp only [paramLE, keyLeB, keyLtB, Bool.not_eq_true'] at h1 h2 ⊢
  exact lexLtB_not_lt_trans h1 h2

/-- Strict order on parameter entries by name; antisymmetric because two
entries cannot each precede the other. -/
def paramLT (a b : String × PValue) : Prop := keyLtB a.1 b.1 = true

instance : IsAntisymm (String × PValue) paramLT := by
  refine ⟨fun a b h1 h2 => ?_⟩
  simp only [paramLT, keyLtB] at h1 h2
  have := lexLtB_asymm _ _ h1
  rw [this] at h2
  cases h2

/-- Modelled from the spec: canonicalization of a step's parameter
mapping, sorted by parameter name so that insertion order never affects
the signature (section 4.1). -/
def canonParams (ps : List (String × PValue)) : List (String × PValue) :=
  List.insertionSort paramLE ps

/-- Modelled from the spec: canonical form of one step. -/
def canonStep (st : Step) : Step :=
  ⟨st.name, st.kind, canonParams st.params⟩

/-- Modelled from the spec: the Pipeline Signature Builder (section 4.1).
The deterministic token is modelled as the canonical serialization
itself: steps in declared order, each with its parameter mapping sorted
by key.  Section 4.1 states that two pipelines are the same for caching
purposes iff their canonical serializations are byte-identical, so the
content hash is taken to be injective on canonical forms. -/
def signature (p : Pipeline) : List Step :=
  p.map canonStep

/-- Modelled from the spec: an EvaluableUnit is one (dataset id, subject
id, session id) cell (data model section 3). -/
structure EvalUnit where
  dataset : String
  subject : Nat
  session : String
deriving DecidableEq

/-- Modelled from the spec: a dataset descriptor with its subjects, each
subject holding a list of session ids (data model section 3; trials and
labels live behind the external loading collaborator). -/
structure Dataset where
  id : String
  subjects : List (Nat × List String)
deriving DecidableEq

/-- Modelled from the spec: the Dataset Partitioner's enumerate
operation, expanding a dataset into its evaluable units (section 4.2). -/
def enumerate (d : Dataset) : List EvalUnit :=
  d.subjects.flatMap (fun sb => sb.2.map (fun ss => ⟨d.id, sb.1, ss⟩))

/-- Modelled from the spec: a ResultKey uniquely identifies one cached
score; equality of all fields is required for a cache hit (section 3). -/
structure ResultKey where
  sig : List Step
  dataset : String
  subject : Nat
  session : String
  evalKind : String
  suffix : String
deriving DecidableEq

/-- Modelled from the spec: a ResultRecord holds the computed metric
value, a timestamp, and the pipeline name that produced it (section 3). -/
structure ResultRecord where
  metric : Rat
  timestamp : Nat
  pipelineName : String
deriving DecidableEq

/-- Modelled from the spec: the Result Store is a persistent key-value
mapping from ResultKey to ResultRecord (section 4.4); modelled as the
mapping itself. -/
def RStore := ResultKey → Option ResultRecord

/-- Modelled from the spec: store errors; AlreadyExists on write
contention, StoreUnavailable is fatal and out of the sequential model. -/
inductive StoreErr where
  | alreadyExists
deriving DecidableEq

/-- Empty store, the initial state of a fresh cache. -/
def emptyStore : RStore := fun _ => none

/-- Modelled from the spec: existence check, no side effect
(section 4.4, operation named exists in the spec). -/
def RStore.existsKey (s : RStore) (k : ResultKey) : Bool :=
  (s k).isSome

/-- Modelled from the spec: read returns the record for a key or
NotFound, modelled as the Option value (section 4.4). -/
def RStore.read (s : RStore) (k : ResultKey) : Option ResultRecord :=
  s k

/-- Modelled from the spec: write(key, record, overwrite).  If overwrite
is false and a record already exists for the key it fails with
AlreadyExists; otherwise it replaces any existing record for exactly
that key (section 4.4). -/
def RStore.write (s : RStore) (k : ResultKey) (r0 : ResultRecord)
    (overwrite : Bool) : Except StoreErr RStore :=
  if overwrite = false ∧ (s k).isSome then
    Except.error StoreErr.alreadyExists
  else
    Except.ok (fun q => if q = k then some r0 else s q)

/-- Observation of a store operation result through the existence check
and read at one key, used to compare observable store states. -/
def obsStore (e : Except StoreErr RStore) (k : ResultKey) :
    Except StoreErr (Bool × Option ResultRecord) :=
  Except.map (fun s => (RStore.existsKey s k, RStore.read s k)) e

/-- Modelled from the spec: outcome of scoring one (pipeline, unit)
pair: a scalar metric, or the per-pair failures DegenerateFold (scoring,
section 4.3) and MissingUnit (loading, section 4.2). -/
inductive ScoreOutcome where
  | ok (v : Rat)
  | degenerateFold
  | missingUnit
deriving DecidableEq

/-- Modelled from the spec: the Scoring Adapter together with the data
loading collaborator, seen by the Engine as a deterministic function
from a pipeline and a unit to a scoring outcome (sections 4.2, 4.3). -/
def Adapter := Pipeline → EvalUnit → ScoreOutcome

/-- Modelled from the spec: the result of one cross-validation fold as
produced by the external scoring function; a floating-point NaN is
modelled as the explicit marker nan, a single-class fold as degenerate
(section 4.3). -/
inductive FoldOutcome where
  | val (q : Rat)
  | nan
  | degenerate
deriving DecidableEq

/-- Value of a fold outcome, defaulting to zero on the failure markers
(these are never averaged, see aggregateFolds). -/
def FoldOutcome.value : FoldOutcome → Rat
  | .val q => q
  | .nan => 0
  | .degenerate => 0

/-- Test whether a fold outcome is a plain value. -/
def FoldOutcome.isVal : FoldOutcome → Bool
  | .val _ => true
  | _ => false

/-- Modelled from the spec: fold aggregation inside the Scoring Adapter
(section 4.3): per-fold scores are averaged across folds; a NaN result
or a degenerate fold makes the whole pair fail with DegenerateFold and
is never averaged in. -/
def aggregateFolds (folds : List FoldOutcome) : ScoreOutcome :=
  if folds.isEmpty then ScoreOutcome.degenerateFold
  else if folds.all (fun f => f.isVal) then
    ScoreOutcome.ok ((folds.map (fun f => f.value)).sum / folds.length)
  else ScoreOutcome.degenerateFold

/-- Modelled from the spec: a scoring adapter built from an external
per-fold evaluator (the cross-validation splitter plus metric function,
section 4.3). -/
def adapterOfFolds (folds : Pipeline → EvalUnit → List FoldOutcome) : Adapter :=
  fun p u => aggregateFolds (folds p u)

/-- Modelled from the spec: per-run configuration (section 6): the
overwrite flag, the cache suffix, the evaluation kind, and the clock
value used to timestamp fresh records. -/
structure Config where
  overwrite : Bool
  suffix : String
  evalKind : String
  now : Nat
deriving DecidableEq

/-- Modelled from the spec: the ResultKey of one (pipeline, unit) pair
under a configuration (section 3). -/
def keyOf (cfg : Config) (p : Pipeline) (u : EvalUnit) : ResultKey :=
  ⟨signature p, u.dataset, u.subject, u.session, cfg.evalKind, cfg.suffix⟩

/-- Modelled from the spec: one row of the ResultTable (section 6):
pipeline name, dataset id, subject id, session id, metric value and
timestamp.  A failed pair is recorded with score none, which is the
spec's way of distinguishing failure rows (section 7). -/
structure Row where
  pipeline : String
  dataset : String
  subject : Nat
  session : String
  score : Option Rat
  timestamp : Nat
deriving DecidableEq

/-- Result of driving one (pipeline, unit) pair to its terminal state:
the appended row, the store afterwards, and whether the Scoring Adapter
was invoked. -/
structure PairResult where
  row : Row
  store : RStore
  called : Bool

/-- Modelled from the spec: the COMPUTING branch of the pair state
machine (section 4.5): the Scoring Adapter is invoked; on success the
record is written with the configured overwrite flag and the pair is
recorded; on DegenerateFold or MissingUnit the pair is recorded as a
failure entry and nothing is written.  A write refused with
AlreadyExists is treated as a non-fatal skip that keeps the store
(section 7). -/
def computePair (adapter : Adapter) (cfg : Config) (s : RStore) (n : String)
    (p : Pipeline) (u : EvalUnit) : PairResult :=
  match adapter p u with
  | ScoreOutcome.ok v =>
      match RStore.write s (keyOf cfg p u) ⟨v, cfg.now, n⟩ cfg.overwrite with
      | Except.ok s2 => ⟨⟨n, u.dataset, u.subject, u.session, some v, cfg.now⟩, s2, true⟩
      | Except.error _ => ⟨⟨n, u.dataset, u.subject, u.session, some v, cfg.now⟩, s, true⟩
  | _ => ⟨⟨n, u.dataset, u.subject, u.session, none, cfg.now⟩, s, true⟩

/-- Modelled from the spec: the per-pair state machine (section 4.5).
With overwrite false and a record already stored the pair is CACHED and
recorded directly from the cached value without invoking the Scoring
Adapter; otherwise it is COMPUTING. -/
def runPair (adapter : Adapter) (cfg : Config) (s : RStore) (n : String)
    (p : Pipeline) (u : EvalUnit) : PairResult :=
  match cfg.overwrite, s (keyOf cfg p u) with
  | false, some r =>
      ⟨⟨n, u.dataset, u.subject, u.session, some r.metric, r.timestamp⟩, s, false⟩
  | _, _ => computePair adapter cfg s n p u

/-- One scheduled pair: pipeline name, pipeline, unit. -/
abbrev SPair := String × Pipeline × EvalUnit

/-- Result of a whole run: the assembled ResultTable, the final store,
and the list of pairs for which the Scoring Adapter was invoked. -/
structure RunResult where
  table : List Row
  store : RStore
  calls : List SPair

/-- Modelled from the spec: the Engine's main loop, driving every
scheduled pair to its terminal state in order and threading the store
(section 4.5). -/
def runPairs (adapter : Adapter) (cfg : Config) : List SPair → RStore → RunResult
  | [], s => ⟨[], s, []⟩
  | t :: rest, s =>
      let pr := runPair adapter cfg s t.1 t.2.1 t.2.2
      let r := runPairs adapter cfg rest pr.store
      ⟨pr.row :: r.table, r.store, (if pr.called then [t] else []) ++ r.calls⟩

/-- Modelled from the spec: the schedule of pairs, pipelines in
declaration order outer, units in enumeration order inner
(section 4.5). -/
def pairsOf (pipes : List (String × Pipeline)) (units : List EvalUnit) :
    List SPair :=
  pipes.flatMap (fun np => units.map (fun u => (np.1, np.2, u)))

/-- Modelled from the spec: the Evaluation Engine's process call
(section 4.5): partition every dataset into units, schedule every
(pipeline, unit) pair, and drive each to RECORDED. -/
def Engine.process (adapter : Adapter) (cfg : Config)
    (pipes : List (String × Pipeline)) (datasets : List Dataset)
    (s : RStore) : RunResult :=
  runPairs adapter cfg (pairsOf pipes (datasets.flatMap enumerate)) s

/-- Order on label strings used by the LabelEncoder model,
kernel-computable. -/
def strLE (a b : String) : Prop := keyLeB a b = true

instance : DecidableRel strLE := fun a b =>
  inferInstanceAs (Decidable (keyLeB a b = true))

instance : IsTotal String strLE := by
  refine ⟨fun a b => ?_⟩
  by_cases h : keyLtB b a = true
  · right
    have := lexLtB_asymm _ _ h
    simp [strLE, keyLeB, keyLtB, this]
  · left
    simp only [Bool.not_eq_true] at h
    simp [strLE, keyLeB, keyLtB] at h ⊢
    exact h

instance : IsTrans String strLE := by
  refine ⟨fun a b c h1 h2 => ?_⟩
  simp only [strLE, keyLeB, keyLtB, Bool.not_eq_true'] at h1 h2 ⊢
  exact lexLtB_not_lt_trans h1 h2

/-- Source: examples/plot_within_session_p300.py line 74, the fixed
label dictionary: Target maps to 1 and NonTarget to 0. -/
def labels_dict (l : String) : Option Nat :=
  if l = "Target" then some 1
  else if l = "NonTarget" then some 0
  else none

/-- Modelled from the spec: the evaluation function uses a sklearn
LabelEncoder (source comment, lines 72 to 73); its classes are the
sorted distinct labels observed. -/
def labelEncoderClasses (labels : List String) : List String :=
  List.insertionSort strLE labels.dedup

/-- Index of the first occurrence of a string in a list, if any. -/
def findIndex (x : String) : List String → Option Nat
  | [] => none
  | a :: as => if a = x then some 0 else Option.map (fun i => i + 1) (findIndex x as)

/-- Modelled from the spec: the numeric code of one label is its index
in the encoder's sorted class list; labels outside the class list have
no code. -/
def encodeWith (labels : List String) (l : String) : Option Nat :=
  findIndex l (labelEncoderClasses labels)

/-- Source: examples/plot_within_session_p300.py lines 50 to 61.  A
numpy ndarray in row-major order, modelled as its shape together with
its flattened buffer. -/
structure NDArray where
  shape : List Nat
  data : List Rat
deriving DecidableEq

/-- Well-formedness of an ndarray: the buffer holds exactly the product
of the dimensions. -/
def NDArray.wf (X : NDArray) : Prop := X.data.length = X.shape.prod

/-- Number of dimensions. -/
def NDArray.ndim (X : NDArray) : Nat := X.shape.length

/-- The Python len of an array: the first dimension; a 0-d array has no
len. -/
def NDArray.len? (X : NDArray) : Option Nat := X.shape.head?

/-- Row-major flattening of the trial at index i: the contiguous slice
of the buffer belonging to X[i]. -/
def NDArray.rowSlice (X : NDArray) (i : Nat) : List Rat :=
  (X.data.drop (i * X.shape.tail.prod)).take (X.shape.tail.prod)

/-- Source: the Vectorizer transformer of
examples/plot_within_session_p300.py; it has no constructor arguments
and no fields. -/
structure Vectorizer where
deriving DecidableEq

/-- Source: Vectorizer.fit returns self and stores nothing (lines 55
to 57). -/
def Vectorizer.fit (v : Vectorizer) (_X : NDArray) (_y : List Nat) : Vectorizer :=
  v

/-- Source: Vectorizer.transform executes np.reshape(X, (len(X), -1))
(lines 59 to 61).  The Python len fails on a 0-d array, and numpy fails
to infer the -1 dimension when the known dimension is zero or does not
divide the total size; both failures are modelled as none. -/
def Vectorizer.transform (_v : Vectorizer) (X : NDArray) : Option NDArray :=
  match X.shape with
  | [] => none
  | n :: _ =>
      if n = 0 ∨ X.data.length % n ≠ 0 then none
      else some ⟨[n, X.data.length / n], X.data⟩

/-- Example store holding one record, used to witness the store claims. -/
def exKey : ResultKey := ⟨[], "d1", 1, "s1", "WithinSession", "examples"⟩

/-- A second, distinct key. -/
def exKey2 : ResultKey := ⟨[], "d1", 1, "s2", "WithinSession", "examples"⟩

/-- An example record. -/
def exRec : ResultRecord := ⟨1, 3, "RG + LogReg"⟩

/-- A second example record with a different metric. -/
def exRec2 : ResultRecord := ⟨0, 7, "Xdw + LDA"⟩

/-- Store holding exRec at exKey and nothing else. -/
def exStore : RStore := fun q => if q = exKey then some exRec else none

/-- C4: write(key, record, overwrite=false) fails with AlreadyExists
when a record already exists for that key, leaving the existing record
unchanged (in this pure model a failed write returns no new store, so
the caller keeps the store whose read at the key is still the old
record); write(key, record, overwrite=true) replaces exactly the record
for that key and leaves every other key untouched. -/
theorem store_write_semantics (s : RStore) (k : ResultKey)
    (r0 r : ResultRecord) (k2 : ResultKey) (hex : RStore.read s k = some r)
    (hne : k2 ≠ k) :
    RStore.write s k r0 false = Except.error StoreErr.alreadyExists ∧
    RStore.read s k = some r ∧
    obsStore (RStore.write s k r0 true) k = Except.ok (true, some r0) ∧
    obsStore (RStore.write s k r0 true) k2 =
      Except.ok (RStore.existsKey s k2, RStore.read s k2) := by
  have hks : (s k).isSome := by
    simp [RStore.read] at hex
    simp [hex]
  refine ⟨?_, hex, ?_, ?_⟩
  · simp [RStore.write, hks]
  · simp [RStore.write, obsStore, Except.map, RStore.existsKey, RStore.read]
  · simp [RStore.write, obsStore, Except.map, RStore.existsKey, RStore.read, hne]

/-- Witness for C4 at a concrete store, key and records. -/
theorem store_write_semantics_witness :
    RStore.write exStore exKey exRec2 false =
      Except.error StoreErr.alreadyExists :=
  (store_write_semantics exStore exKey exRec2 exRec exKey2 (by decide)
    (by decide)).1

/-- C7: writing the same key and record twice with overwrite=true leaves
the store in the same observable state, as seen through the existence
check and read at every key, as writing it once. -/
theorem store_write_idempotent (s : RStore) (k : ResultKey)
    (r0 : ResultRecord) (k2 : ResultKey) :
    obsStore (Except.bind (RStore.write s k r0 true)
        (fun s1 => RStore.write s1 k r0 true)) k2 =
    obsStore (RStore.write s k r0 true) k2 := by
  simp only [RStore.write, obsStore, RStore.existsKey, RStore.read]
  simp [Except.bind, Except.map]
  split_ifs with h <;> simp [h]

theorem sum_le_length_of_bounded (L : List Rat)
    (hb : ∀ q ∈ L, 0 ≤ q ∧ q ≤ 1) : 0 ≤ L.sum ∧ L.sum ≤ (L.length : Rat) := by
  induction L with
  | nil => simp
  | cons a as ih =>
      have ha := hb a (by simp)
      have has : ∀ q ∈ as, 0 ≤ q ∧ q ≤ 1 := fun q hq => hb q (by simp [hq])
      have := ih has
      constructor
      · simp only [List.sum_cons]
        have := this.1
        linarith [ha.1]
      · simp only [List.sum_cons, List.length_cons]
        push_cast
        linarith [ha.2, this.2]

/-- C6: the metric averaged by the Scoring Adapter over the folds is a
real number: when every fold yields a value in the bounded range zero to
one, the adapter returns a metric in that range; whenever any fold
yields a NaN the pair fails with DegenerateFold; and a returned metric
is always the mean of plain fold values with no NaN and no degenerate
fold among them, so a NaN is never averaged in. -/
theorem adapter_numeric_semantics (folds : Pipeline → EvalUnit → List FoldOutcome)
    (p : Pipeline) (u : EvalUnit) :
    (FoldOutcome.nan ∈ folds p u →
      adapterOfFolds folds p u = ScoreOutcome.degenerateFold) ∧
    (∀ v, adapterOfFolds folds p u = ScoreOutcome.ok v →
      FoldOutcome.nan ∉ folds p u ∧ FoldOutcome.degenerate ∉ folds p u ∧
      v = ((folds p u).map (fun f => f.value)).sum / ((folds p u).length : Rat)) ∧
    (folds p u ≠ [] →
      (∀ f ∈ folds p u, f.isVal = true ∧ 0 ≤ f.value ∧ f.value ≤ 1) →
      ∃ v, adapterOfFolds folds p u = ScoreOutcome.ok v ∧ 0 ≤ v ∧ v ≤ 1) := by
  refine ⟨?_, ?_, ?_⟩
  · intro hmem
    have hall : (folds p u).all (fun f => f.isVal) = false := by
      rw [List.all_eq_false]
      exact ⟨FoldOutcome.nan, hmem, by simp [FoldOutcome.isVal]⟩
    simp [adapterOfFolds, aggregateFolds, hall]
  · intro v hok
    by_cases hemp : (folds p u).isEmpty
    · simp [adapterOfFolds, aggregateFolds, hemp] at hok
    · by_cases hall : (folds p u).all (fun f => f.isVal) = true
      · have hv : v = ((folds p u).map (fun f => f.value)).sum / ((folds p u).length : Rat) := by
          simp [adapterOfFolds, aggregateFolds, hemp, hall] at hok
          exact hok.symm
        refine ⟨?_, ?_, hv⟩
        · intro hmem
          have := List.all_eq_true.mp hall FoldOutcome.nan hmem
          simp [FoldOutcome.isVal] at this
        · intro hmem
          have := List.all_eq_true.mp hall FoldOutcome.degenerate hmem
          simp [FoldOutcome.isVal] at this
      · simp [adapterOfFolds, aggregateFolds, hemp, hall] at hok
  · intro hne hall
    have hemp : (folds p u).isEmpty = false := by
      simp [List.isEmpty_iff]
      exact hne
    have hall2 : (folds p u).all (fun f => f.isVal) = true := by
      rw [List.all_eq_true]
      exact fun f hf => (hall f hf).1
    refine ⟨((folds p u).map (fun f => f.value)).sum / ((folds p u).length : Rat),
      by simp [adapterOfFolds, aggregateFolds, hemp, hall2], ?_, ?_⟩
    · apply div_nonneg
      · exact (sum_le_length_of_bounded _ (by
          intro q hq
          rcases List.mem_map.mp hq with ⟨f, hf, hfq⟩
          exact hfq ▸ ⟨(hall f hf).2.1, (hall f hf).2.2⟩)).1
      · positivity
    · have hlen : (0 : Rat) < ((folds p u).length : Rat) := by
        have : 0 < (folds p u).length := List.length_pos.mpr hne
        exact_mod_cast this
      rw [div_le_one hlen]
      have := (sum_le_length_of_bounded ((folds p u).map (fun f => f.value)) (by
        intro q hq
        rcases List.mem_map.mp hq with ⟨f, hf, hfq⟩
        exact hfq ▸ ⟨(hall f hf).2.1, (hall f hf).2.2⟩)).2
      simpa using this

/-- Example fold evaluator used to witness C6. -/
def exFolds : Pipeline → EvalUnit → List FoldOutcome :=
  fun _ _ => [FoldOutcome.val 1, FoldOutcome.val 0]

/-- Example unit used in witnesses. -/
def exUnit : EvalUnit := ⟨"d1", 1, "s1"⟩

/-- Witness for C6: on two in-range folds the adapter returns an
in-range metric. -/
theorem adapter_numeric_semantics_witness :
    ∃ v, adapterOfFolds exFolds [] exUnit = ScoreOutcome.ok v ∧
      0 ≤ v ∧ v ≤ 1 :=
  (adapter_numeric_semantics exFolds [] exUnit).2.2 (by decide) (by decide)

/-- C8: datasets of the same paradigm share one fixed numeric label
encoding.  Any two datasets whose observed class set canonicalizes to
the two-class target scheme get the exact same encoder; that encoder
sends Target to 1 and NonTarget to 0; and it agrees everywhere with the
fixed labels_dict of the source file, so metric values are comparable
across those datasets. -/
theorem label_encoding_fixed (labels1 labels2 : List String)
    (h1 : labelEncoderClasses labels1 = ["NonTarget", "Target"])
    (h2 : labelEncoderClasses labels2 = ["NonTarget", "Target"]) :
    (∀ l, encodeWith labels1 l = encodeWith labels2 l) ∧
    encodeWith labels1 "Target" = some 1 ∧
    encodeWith labels1 "NonTarget" = some 0 ∧
    (∀ l, encodeWith labels1 l = labels_dict l) := by
  refine ⟨?_, ?_, ?_, ?_⟩
  · intro l
    simp [encodeWith, h1, h2]
  · simp [encodeWith, h1]
    decide
  · simp [encodeWith, h1]
    decide
  · intro l
    simp only [encodeWith, h1, labels_dict, findIndex]
    by_cases hT : l = "Target"
    · subst hT
      decide
    · by_cases hN : l = "NonTarget"
      · subst hN
        decide
      · simp [Ne.symm hN, Ne.symm hT, hT, hN]

/-- Witness for C8 at two concrete datasets' label lists. -/
theorem label_encoding_fixed_witness :
    encodeWith ["Target", "NonTarget", "Target"] "Target" = some 1 :=
  (label_encoding_fixed ["Target", "NonTarget", "Target"]
    ["NonTarget", "Target", "NonTarget"] (by decide) (by decide)).2.1

/-- C10 (amended): for every nonempty well-formed numpy array X with at
least one dimension and positive leading dimension, transform returns a
two-dimensional array whose first dimension equals len(X), whose buffer
is exactly the buffer of X (total element count preserved), and whose
i-th row is the row-major flattening of the i-th trial of X; fit returns
the instance itself, and a Vectorizer carries no state at all (any two
instances are equal). -/
theorem vectorizer_transform_spec (v : Vectorizer) (X : NDArray) (n : Nat)
    (rest : List Nat) (hsh : X.shape = n :: rest) (hwf : X.wf) (hn : 0 < n) :
    ∃ Y, Vectorizer.transform v X = some Y ∧
      Y.ndim = 2 ∧
      Y.len? = some n ∧
      Y.shape = [n, rest.prod] ∧
      Y.data = X.data ∧
      Y.wf ∧
      (∀ i, Y.rowSlice i = X.rowSlice i) ∧
      (∀ y, Vectorizer.fit v X y = v) ∧
      (∀ w : Vectorizer, w = v) := by
  obtain ⟨shape, data⟩ := X
  simp only [NDArray.wf] at hwf
  simp only at hsh
  subst hsh
  have hlen : data.length = n * rest.prod := by
    simpa [List.prod_cons] using hwf
  have hmod : data.length % n = 0 := by
    rw [hlen]
    exact Nat.mul_mod_right n rest.prod
  have hdiv : data.length / n = rest.prod := by
    rw [hlen]
    exact Nat.mul_div_cancel_left rest.prod hn
  refine ⟨⟨[n, data.length / n], data⟩, ?_, rfl, rfl, ?_, rfl, ?_, ?_, ?_, ?_⟩
  · simp [Vectorizer.transform, Nat.pos_iff_ne_zero.mp hn, hmod]
  · rw [hdiv]
  · simp only [NDArray.wf, List.prod_cons, List.prod_nil]
    rw [hdiv]
    simpa using hlen
  · intro i
    simp [NDArray.rowSlice, hdiv]
  · intro y
    rfl
  · intro w
    cases w
    cases v
    rfl

/-- Witness for C10's amended theorem at a concrete 2 by 3 array. -/
theorem vectorizer_transform_spec_witness :
    ∃ Y, Vectorizer.transform ⟨⟩ ⟨[2, 3], [1, 2, 3, 4, 5, 6]⟩ = some Y ∧
      Y.ndim = 2 ∧
      Y.len? = some 2 ∧
      Y.shape = [2, List.prod [3]] ∧
      Y.data = NDArray.data ⟨[2, 3], [1, 2, 3, 4, 5, 6]⟩ ∧
      Y.wf ∧
      (∀ i, Y.rowSlice i = NDArray.rowSlice ⟨[2, 3], [1, 2, 3, 4, 5, 6]⟩ i) ∧
      (∀ y, Vectorizer.fit ⟨⟩ ⟨[2, 3], [1, 2, 3, 4, 5, 6]⟩ y = ⟨⟩) ∧
      (∀ w : Vectorizer, w = ⟨⟩) :=
  vectorizer_transform_spec ⟨⟩ ⟨[2, 3], [1, 2, 3, 4, 5, 6]⟩ 2 [3]
    rfl rfl (by decide)

/-- Counterexample for C10 as stated: the empty one-dimensional array
(numpy array of shape (0,)) is well formed and has one dimension, yet
transform fails (numpy cannot infer the -1 dimension when the known
dimension is 0), so transform does not return a two-dimensional array
for every array with at least one dimension. -/
theorem vectorizer_transform_counterexample :
    NDArray.ndim ⟨[0], []⟩ = 1 ∧ NDArray.wf ⟨[0], []⟩ ∧
    Vectorizer.transform ⟨⟩ ⟨[0], []⟩ = none :=
  ⟨rfl, rfl, rfl⟩

theorem canonParams_perm (ps : List (String × PValue)) :
    (canonParams ps).Perm ps :=
  List.perm_insertionSort paramLE ps

theorem canonParams_sorted (ps : List (String × PValue)) :
    List.Sorted paramLE (canonParams ps) :=
  List.sorted_insertionSort paramLE ps

theorem sorted_lt_of_sorted_le_nodup {l : List (String × PValue)}
    (hs : List.Sorted paramLE l) (hn : (l.map Prod.fst).Nodup) :
    List.Sorted paramLT l := by
  have hne : l.Pairwise (fun a b : String × PValue => a.1 ≠ b.1) :=
    List.pairwise_map.mp hn
  have hand := List.Pairwise.and hs hne
  refine hand.imp ?_
  rintro a b ⟨hle, hab⟩
  simp only [paramLE, keyLeB, Bool.not_eq_true'] at hle
  exact keyLeB_of_ne_of_not_lt (fun h => hab h.symm) hle

theorem canonParams_eq_of_perm {ps qs : List (String × PValue)}
    (h : ps.Perm qs) (hn : (ps.map Prod.fst).Nodup) :
    canonParams ps = canonParams qs := by
  have hnq : (qs.map Prod.fst).Nodup := ((h.map Prod.fst).nodup_iff).mp hn
  have hn1 : ((canonParams ps).map Prod.fst).Nodup :=
    (((canonParams_perm ps).map Prod.fst).nodup_iff).mpr hn
  have hn2 : ((canonParams qs).map Prod.fst).Nodup :=
    (((canonParams_perm qs).map Prod.fst).nodup_iff).mpr hnq
  have hperm : (canonParams ps).Perm (canonParams qs) :=
    ((canonParams_perm ps).trans h).trans (canonParams_perm qs).symm
  exact List.eq_of_perm_of_sorted hperm
    (sorted_lt_of_sorted_le_nodup (canonParams_sorted ps) hn1)
    (sorted_lt_of_sorted_le_nodup (canonParams_sorted qs) hn2)

/-- Lookup of a parameter value by name, first match. -/
def lookupP (k : String) : List (String × PValue) → Option PValue
  | [] => none
  | e :: es => if e.1 = k then some e.2 else lookupP k es

theorem lookupP_eq_some_iff : ∀ {l : List (String × PValue)},
    (l.map Prod.fst).Nodup → ∀ {k : String} {v : PValue},
    (lookupP k l = some v ↔ (k, v) ∈ l) := by
  intro l
  induction l with
  | nil => intro _ k v; simp [lookupP]
  | cons e es ih =>
      intro hn k v
      obtain ⟨k0, v0⟩ := e
      rw [List.map_cons, List.nodup_cons] at hn
      by_cases hk : k0 = k
      · subst hk
        constructor
        · intro hv
          have hv2 : v0 = v := by simpa [lookupP] using hv
          subst hv2
          exact List.mem_cons_self _ _
        · intro hmem
          rcases List.mem_cons.mp hmem with hhd | htl
          · injection hhd with h1 h2
            subst h2
            simp [lookupP]
          · exact absurd (List.mem_map.mpr ⟨(k0, v), htl, rfl⟩) hn.1
      · simp only [lookupP, if_neg hk]
        rw [ih hn.2]
        constructor
        · intro htl
          exact List.mem_cons.mpr (Or.inr htl)
        · intro hmem
          rcases List.mem_cons.mp hmem with hhd | htl
          · exact absurd (congrArg Prod.fst hhd).symm hk
          · exact htl

theorem lookupP_eq_none_iff : ∀ {l : List (String × PValue)} {k : String},
    (lookupP k l = none ↔ ∀ e ∈ l, e.1 ≠ k) := by
  intro l
  induction l with
  | nil => intro k; simp [lookupP]
  | cons e es ih =>
      intro k
      by_cases hk : e.1 = k
      · simp [lookupP, hk]
      · simp only [lookupP, if_neg hk]
        rw [ih]
        constructor
        · intro h f hf
          rcases List.mem_cons.mp hf with hhd | htl
          · rw [hhd]; exact hk
          · exact h f htl
        · intro h f hf
          exact h f (List.mem_cons.mpr (Or.inr hf))

theorem lookupP_perm {l m : List (String × PValue)} (h : l.Perm m)
    (hn : (l.map Prod.fst).Nodup) (k : String) :
    lookupP k l = lookupP k m := by
  have hnm : (m.map Prod.fst).Nodup := ((h.map Prod.fst).nodup_iff).mp hn
  cases hc : lookupP k m with
  | some v =>
      exact (lookupP_eq_some_iff hn).mpr (h.mem_iff.mpr ((lookupP_eq_some_iff hnm).mp hc))
  | none =>
      rw [lookupP_eq_none_iff]
      intro e he
      exact (lookupP_eq_none_iff.mp hc) e (h.mem_iff.mp he)

theorem canonParams_lookupP {ps : List (String × PValue)}
    (hn : (ps.map Prod.fst).Nodup) (k : String) :
    lookupP k (canonParams ps) = lookupP k ps :=
  lookupP_perm (canonParams_perm ps)
    ((((canonParams_perm ps).map Prod.fst).nodup_iff).mpr hn) k

/-- C2: the signature is a pure function of the canonical step and
parameter structure.  Identical canonical structures give identical
signatures; reordering the parameters inside a step's mapping (with
distinct parameter names) never changes the signature; adding a step,
changing the stored value of a parameter, or swapping two canonically
distinct steps always changes the signature. -/
theorem signature_deterministic :
    (∀ p1 p2 : Pipeline, List.map canonStep p1 = List.map canonStep p2 →
      signature p1 = signature p2) ∧
    (∀ p1 p2 : Pipeline,
      List.Forall₂ (fun s t : Step => s.name = t.name ∧ s.kind = t.kind ∧
        s.params.Perm t.params ∧ (s.params.map Prod.fst).Nodup) p1 p2 →
      signature p1 = signature p2) ∧
    (∀ p1 p2 : Pipeline, p1.length ≠ p2.length → signature p1 ≠ signature p2) ∧
    (∀ (a b : Pipeline) (nm : String) (kd : StepKind)
      (ps1 ps2 : List (String × PValue)) (k : String) (v1 v2 : PValue),
      lookupP k ps1 = some v1 → lookupP k ps2 = some v2 → v1 ≠ v2 →
      (ps1.map Prod.fst).Nodup → (ps2.map Prod.fst).Nodup →
      signature (a ++ ⟨nm, kd, ps1⟩ :: b) ≠ signature (a ++ ⟨nm, kd, ps2⟩ :: b)) ∧
    (∀ (s t : Step) (r : Pipeline), canonStep s ≠ canonStep t →
      signature (s :: t :: r) ≠ signature (t :: s :: r)) := by
  refine ⟨?_, ?_, ?_, ?_, ?_⟩
  · intro p1 p2 h
    simpa [signature] using h
  · intro p1 p2 h
    induction h with
    | nil => rfl
    | cons hrel hrest ih =>
        rename_i x y l1 l2
        obtain ⟨hname, hkind, hperm, hnodup⟩ := hrel
        simp only [signature, List.map_cons] at ih ⊢
        rw [ih]
        have hstep : canonStep x = canonStep y := by
          simp [canonStep, hname, hkind, canonParams_eq_of_perm hperm hnodup]
        rw [hstep]
  · intro p1 p2 hlen heq
    apply hlen
    have := congrArg List.length heq
    simpa [signature] using this
  · intro a b nm kd ps1 ps2 k v1 v2 h1 h2 hne hn1 hn2 heq
    simp only [signature, List.map_append, List.map_cons] at heq
    have htail := List.append_cancel_left heq
    have hhead : canonStep ⟨nm, kd, ps1⟩ = canonStep ⟨nm, kd, ps2⟩ :=
      (List.cons.injEq _ _ _ _).mp htail |>.1
    have hps : canonParams ps1 = canonParams ps2 := by
      simpa [canonStep] using hhead
    have hl1 := canonParams_lookupP hn1 k
    have hl2 := canonParams_lookupP hn2 k
    rw [hps, hl2, h2] at hl1
    rw [h1] at hl1
    exact hne (Option.some.inj hl1).symm
  · intro s t r hne heq
    simp only [signature, List.map_cons] at heq
    exact hne ((List.cons.injEq _ _ _ _).mp heq).1

/-- Witness for C2: the two parameter orders of the LDA step of the
source example produce the same signature. -/
theorem signature_deterministic_witness :
    signature [⟨"lda", StepKind.estimator,
        [("solver", PValue.str "lsqr"), ("shrinkage", PValue.str "auto")]⟩] =
    signature [⟨"lda", StepKind.estimator,
        [("shrinkage", PValue.str "auto"), ("solver", PValue.str "lsqr")]⟩] :=
  signature_deterministic.2.1 _ _
    (List.Forall₂.cons ⟨rfl, rfl, by decide, by decide⟩ List.Forall₂.nil)

theorem keyOf_congr {cfg1 cfg2 : Config} (hsuf : cfg1.suffix = cfg2.suffix)
    (hkind : cfg1.evalKind = cfg2.evalKind) (p : Pipeline) (u : EvalUnit) :
    keyOf cfg1 p u = keyOf cfg2 p u := by
  simp [keyOf, hsuf, hkind]

theorem keyOf_inj {cfg : Config} {p p' : Pipeline} {u u' : EvalUnit}
    (h : keyOf cfg p u = keyOf cfg p' u') :
    signature p = signature p' ∧ u = u' := by
  simp only [keyOf, ResultKey.mk.injEq] at h
  obtain ⟨hs, hd, hsb, hss, -, -⟩ := h
  refine ⟨hs, ?_⟩
  cases u
  cases u'
  simp only at hd hsb hss
  simp [hd, hsb, hss]

theorem computePair_ok {adapter : Adapter} {cfg : Config} {s : RStore}
    {n : String} {p : Pipeline} {u : EvalUnit} {v : Rat}
    (had : adapter p u = ScoreOutcome.ok v)
    (hcond : cfg.overwrite = true ∨ s (keyOf cfg p u) = none) :
    computePair adapter cfg s n p u =
      ⟨⟨n, u.dataset, u.subject, u.session, some v, cfg.now⟩,
        (fun q => if q = keyOf cfg p u then some ⟨v, cfg.now, n⟩ else s q),
        true⟩ := by
  rcases hcond with h | h
  · simp [computePair, had, RStore.write, h]
  · simp [computePair, had, RStore.write, h]

theorem computePair_fail {adapter : Adapter} {cfg : Config} {s : RStore}
    {n : String} {p : Pipeline} {u : EvalUnit}
    (had : adapter p u = ScoreOutcome.degenerateFold ∨
      adapter p u = ScoreOutcome.missingUnit) :
    computePair adapter cfg s n p u =
      ⟨⟨n, u.dataset, u.subject, u.session, none, cfg.now⟩, s, true⟩ := by
  rcases had with h | h <;> simp [computePair, h]

theorem computePair_called (adapter : Adapter) (cfg : Config) (s : RStore)
    (n : String) (p : Pipeline) (u : EvalUnit) :
    (computePair adapter cfg s n p u).called = true := by
  cases had : adapter p u with
  | ok v =>
      simp only [computePair, had]
      cases hw : RStore.write s (keyOf cfg p u) ⟨v, cfg.now, n⟩ cfg.overwrite with
      | ok s2 => simp [hw]
      | error e => simp [hw]
  | degenerateFold => simp [computePair, had]
  | missingUnit => simp [computePair, had]

theorem runPair_cached {adapter : Adapter} {cfg : Config} {s : RStore}
    {n : String} {p : Pipeline} {u : EvalUnit} {r : ResultRecord}
    (hov : cfg.overwrite = false) (hk : s (keyOf cfg p u) = some r) :
    runPair adapter cfg s n p u =
      ⟨⟨n, u.dataset, u.subject, u.session, some r.metric, r.timestamp⟩, s,
        false⟩ := by
  simp [runPair, hov, hk]

theorem runPair_miss {adapter : Adapter} {cfg : Config} {s : RStore}
    {n : String} {p : Pipeline} {u : EvalUnit}
    (hk : s (keyOf cfg p u) = none) :
    runPair adapter cfg s n p u = computePair adapter cfg s n p u := by
  cases hov : cfg.overwrite <;> simp [runPair, hov, hk]

theorem runPair_over {adapter : Adapter} {cfg : Config} {s : RStore}
    {n : String} {p : Pipeline} {u : EvalUnit} (hov : cfg.overwrite = true) :
    runPair adapter cfg s n p u = computePair adapter cfg s n p u := by
  cases hk : s (keyOf cfg p u) <;> simp [runPair, hov, hk]

theorem runPair_store_cases (adapter : Adapter) (cfg : Config) (s : RStore)
    (n : String) (p : Pipeline) (u : EvalUnit) :
    (runPair adapter cfg s n p u).store = s ∨
    ∃ v, adapter p u = ScoreOutcome.ok v ∧
      (cfg.overwrite = true ∨ s (keyOf cfg p u) = none) ∧
      ∀ q, (runPair adapter cfg s n p u).store q =
        (if q = keyOf cfg p u then some ⟨v, cfg.now, n⟩ else s q) := by
  cases hk : s (keyOf cfg p u) with
  | some r =>
      cases hov : cfg.overwrite with
      | false =>
          left
          rw [runPair_cached hov hk]
      | true =>
          cases had : adapter p u with
          | ok v =>
              right
              refine ⟨v, rfl, Or.inl rfl, ?_⟩
              intro q
              rw [runPair_over hov, computePair_ok had (Or.inl hov)]
          | degenerateFold =>
              left
              rw [runPair_over hov, computePair_fail (Or.inl had)]
          | missingUnit =>
              left
              rw [runPair_over hov, computePair_fail (Or.inr had)]
  | none =>
      cases had : adapter p u with
      | ok v =>
          right
          refine ⟨v, rfl, Or.inr rfl, ?_⟩
          intro q
          rw [runPair_miss hk, computePair_ok had (Or.inr hk)]
      | degenerateFold =>
          left
          rw [runPair_miss hk, computePair_fail (Or.inl had)]
      | missingUnit =>
          left
          rw [runPair_miss hk, computePair_fail (Or.inr had)]

theorem runPair_store_mono {adapter : Adapter} {cfg : Config} {s : RStore}
    {n : String} {p : Pipeline} {u : EvalUnit} {k0 : ResultKey}
    {r0 : ResultRecord} (hov : cfg.overwrite = false) (hk0 : s k0 = some r0) :
    (runPair adapter cfg s n p u).store k0 = some r0 := by
  rcases runPair_store_cases adapter cfg s n p u with hs | ⟨v, had, hcond, hs⟩
  · rw [hs, hk0]
  · rcases hcond with hcond | hcond
    · rw [hcond] at hov
      cases hov
    · rw [hs k0]
      by_cases hq : k0 = keyOf cfg p u
      · rw [hq] at hk0
        rw [hcond] at hk0
        cases hk0
      · rw [if_neg hq]
        exact hk0

theorem runPairs_store_mono {adapter : Adapter} {cfg : Config}
    (hov : cfg.overwrite = false) :
    ∀ (P : List SPair) (s : RStore) (k0 : ResultKey) (r0 : ResultRecord),
      s k0 = some r0 → (runPairs adapter cfg P s).store k0 = some r0 := by
  intro P
  induction P with
  | nil => intro s k0 r0 h; exact h
  | cons t rest ih =>
      intro s k0 r0 h
      simp only [runPairs]
      exact ih _ k0 r0 (runPair_store_mono hov h)

theorem runPairs_store_sound {adapter : Adapter} {cfg : Config} :
    ∀ (P : List SPair) (s : RStore) (k0 : ResultKey) (r0 : ResultRecord),
      (runPairs adapter cfg P s).store k0 = some r0 →
      s k0 = some r0 ∨ ∃ t ∈ P, keyOf cfg t.2.1 t.2.2 = k0 ∧
        ∃ v, adapter t.2.1 t.2.2 = ScoreOutcome.ok v := by
  intro P
  induction P with
  | nil => intro s k0 r0 h; exact Or.inl h
  | cons t rest ih =>
      intro s k0 r0 h
      simp only [runPairs] at h
      rcases ih _ k0 r0 h with h1 | ⟨t2, ht2, hkey, hv⟩
      · rcases runPair_store_cases adapter cfg s t.1 t.2.1 t.2.2 with hs | ⟨v, had, _, hs⟩
        · rw [hs] at h1
          exact Or.inl h1
        · rw [hs k0] at h1
          by_cases hq : k0 = keyOf cfg t.2.1 t.2.2
          · exact Or.inr ⟨t, List.mem_cons_self t rest, hq.symm, v, had⟩
          · rw [if_neg hq] at h1
            exact Or.inl h1
      · exact Or.inr ⟨t2, List.mem_cons.mpr (Or.inr ht2), hkey, hv⟩

theorem runPairs_calls_subset {adapter : Adapter} {cfg : Config} :
    ∀ (P : List SPair) (s : RStore) (t : SPair),
      t ∈ (runPairs adapter cfg P s).calls → t ∈ P := by
  intro P
  induction P with
  | nil => intro s t h; simp [runPairs] at h
  | cons t0 rest ih =>
      intro s t h
      simp only [runPairs, List.mem_append] at h
      rcases h with h | h
      · split_ifs at h with hc
        · rcases List.mem_singleton.mp h with rfl
          exact List.mem_cons_self _ _
        · simp at h
      · exact List.mem_cons.mpr (Or.inr (ih _ t h))

theorem runPair_called_of_overwrite {adapter : Adapter} {cfg : Config}
    (hov : cfg.overwrite = true) (s : RStore) (n : String) (p : Pipeline)
    (u : EvalUnit) : (runPair adapter cfg s n p u).called = true := by
  rw [runPair_over hov]
  exact computePair_called adapter cfg s n p u

theorem runPairs_calls_all {adapter : Adapter} {cfg : Config}
    (hov : cfg.overwrite = true) :
    ∀ (P : List SPair) (s : RStore) (t : SPair), t ∈ P →
      t ∈ (runPairs adapter cfg P s).calls := by
  intro P
  induction P with
  | nil => intro s t h; cases h
  | cons t0 rest ih =>
      intro s t h
      simp only [runPairs, List.mem_append]
      rcases List.mem_cons.mp h with rfl | h
      · left
        rw [runPair_called_of_overwrite hov]
        exact List.mem_singleton.mpr rfl
      · right
        exact ih _ t h

theorem runPairs_table_length (adapter : Adapter) (cfg : Config) :
    ∀ (P : List SPair) (s : RStore),
      (runPairs adapter cfg P s).table.length = P.length := by
  intro P
  induction P with
  | nil => intro s; rfl
  | cons t rest ih =>
      intro s
      simp only [runPairs, List.length_cons]
      rw [ih]

theorem runPair_row_fields (adapter : Adapter) (cfg : Config) (s : RStore)
    (n : String) (p : Pipeline) (u : EvalUnit) :
    (runPair adapter cfg s n p u).row.pipeline = n ∧
    (runPair adapter cfg s n p u).row.dataset = u.dataset ∧
    (runPair adapter cfg s n p u).row.subject = u.subject ∧
    (runPair adapter cfg s n p u).row.session = u.session := by
  cases hk : s (keyOf cfg p u) with
  | some r =>
      cases hov : cfg.overwrite with
      | false => rw [runPair_cached hov hk]; exact ⟨rfl, rfl, rfl, rfl⟩
      | true =>
          rw [runPair_over hov]
          cases had : adapter p u with
          | ok v =>
              rw [computePair_ok had (Or.inl hov)]
              exact ⟨rfl, rfl, rfl, rfl⟩
          | degenerateFold =>
              rw [computePair_fail (Or.inl had)]
              exact ⟨rfl, rfl, rfl, rfl⟩
          | missingUnit =>
              rw [computePair_fail (Or.inr had)]
              exact ⟨rfl, rfl, rfl, rfl⟩
  | none =>
      rw [runPair_miss hk]
      cases had : adapter p u with
      | ok v =>
          rw [computePair_ok had (Or.inr hk)]
          exact ⟨rfl, rfl, rfl, rfl⟩
      | degenerateFold =>
          rw [computePair_fail (Or.inl had)]
          exact ⟨rfl, rfl, rfl, rfl⟩
      | missingUnit =>
          rw [computePair_fail (Or.inr had)]
          exact ⟨rfl, rfl, rfl, rfl⟩

theorem runPairs_row_fields (adapter : Adapter) (cfg : Config) :
    ∀ (P : List SPair) (s : RStore) (i : Nat) (n : String) (p : Pipeline)
      (u : EvalUnit), P[i]? = some (n, p, u) →
      ∃ r, (runPairs adapter cfg P s).table[i]? = some r ∧
        r.pipeline = n ∧ r.dataset = u.dataset ∧ r.subject = u.subject ∧
        r.session = u.session := by
  intro P
  induction P with
  | nil => intro s i n p u h; simp at h
  | cons t rest ih =>
      intro s i n p u h
      cases i with
      | zero =>
          simp only [List.getElem?_cons_zero] at h
          have ht := Option.some.inj h
          simp only [runPairs, List.getElem?_cons_zero]
          refine ⟨(runPair adapter cfg s t.1 t.2.1 t.2.2).row, rfl, ?_⟩
          have hf := runPair_row_fields adapter cfg s t.1 t.2.1 t.2.2
          subst ht
          exact hf
      | succ j =>
          simp only [List.getElem?_cons_succ] at h
          simp only [runPairs, List.getElem?_cons_succ]
          exact ih _ j n p u h

theorem pairsOf_length (pipes : List (String × Pipeline))
    (units : List EvalUnit) :
    (pairsOf pipes units).length = pipes.length * units.length := by
  induction pipes with
  | nil => simp [pairsOf]
  | cons np rest ih =>
      simp only [pairsOf, List.flatMap_cons, List.length_append,
        List.length_map, List.length_cons]
      rw [← pairsOf]
      rw [ih]
      ring

/-- Example adapter for witnesses: scoring fails with DegenerateFold on
the session named bad and otherwise returns the number of steps. -/
def exAdapter : Adapter := fun p u =>
  if u.session = "bad" then ScoreOutcome.degenerateFold
  else ScoreOutcome.ok p.length

/-- Example pipeline mirroring the Riemannian pipeline of the source. -/
def exPipeRG : Pipeline :=
  [⟨"erpcov", StepKind.transform, [("estimator", PValue.str "lwf")]⟩]

/-- Example pipeline mirroring the xDawn plus LDA pipeline of the
source. -/
def exPipeXdw : Pipeline :=
  [⟨"xdawn", StepKind.transform, [("nfilter", PValue.num 4)]⟩,
   ⟨"lda", StepKind.estimator, []⟩]

/-- Example pipeline dictionary in declaration order. -/
def exPipes : List (String × Pipeline) :=
  [("RG + LogReg", exPipeRG), ("Xdw + LDA", exPipeXdw)]

/-- Example dataset: one subject with a good and a bad session. -/
def exData : List Dataset := [⟨"d1", [(1, ["s1", "bad"])]⟩]

/-- Example run configuration without overwrite. -/
def exCfg : Config := ⟨false, "examples", "WithinSession", 5⟩

/-- Example run configuration with overwrite. -/
def exCfgTrue : Config := ⟨true, "examples", "WithinSession", 5⟩

/-- C9: the ResultTable of a completed run is a row-oriented structure
whose rows expose the pipeline name, dataset id, subject id, session id,
metric value (none for failure rows) and timestamp; it holds exactly one
row per scheduled (pipeline, unit) pair, in schedule order, every pair
having reached a terminal state. -/
theorem result_table_columns (adapter : Adapter) (cfg : Config)
    (pipes : List (String × Pipeline)) (datasets : List Dataset)
    (s : RStore) :
    (Engine.process adapter cfg pipes datasets s).table.length =
      pipes.length * (datasets.flatMap enumerate).length ∧
    ∀ (i : Nat) (n : String) (p : Pipeline) (u : EvalUnit),
      (pairsOf pipes (datasets.flatMap enumerate))[i]? = some (n, p, u) →
      ∃ r, (Engine.process adapter cfg pipes datasets s).table[i]? = some r ∧
        r.pipeline = n ∧ r.dataset = u.dataset ∧ r.subject = u.subject ∧
        r.session = u.session := by
  constructor
  · show (runPairs adapter cfg (pairsOf pipes (datasets.flatMap enumerate)) s).table.length = _
    rw [runPairs_table_length, pairsOf_length]
  · intro i n p u h
    exact runPairs_row_fields adapter cfg _ s i n p u h

/-- Witness for C9: the first row of the example run carries the first
scheduled pair's identifiers. -/
theorem result_table_columns_witness :
    ∃ r, (Engine.process exAdapter exCfg exPipes exData emptyStore).table[0]? =
        some r ∧
      r.pipeline = "RG + LogReg" ∧ r.dataset = "d1" ∧ r.subject = 1 ∧
      r.session = "s1" :=
  (result_table_columns exAdapter exCfg exPipes exData emptyStore).2 0
    "RG + LogReg" exPipeRG ⟨"d1", 1, "s1"⟩ (by decide)

theorem runPairs_rows_fresh {adapter : Adapter} {cfg : Config} :
    ∀ (P : List SPair) (s : RStore),
      (∀ t ∈ P, s (keyOf cfg t.2.1 t.2.2) = none) →
      P.Pairwise (fun t1 t2 => keyOf cfg t1.2.1 t1.2.2 ≠ keyOf cfg t2.2.1 t2.2.2) →
      (runPairs adapter cfg P s).table = P.map (fun t =>
        match adapter t.2.1 t.2.2 with
        | ScoreOutcome.ok v =>
            ⟨t.1, t.2.2.dataset, t.2.2.subject, t.2.2.session, some v, cfg.now⟩
        | _ =>
            ⟨t.1, t.2.2.dataset, t.2.2.subject, t.2.2.session, none, cfg.now⟩) := by
  intro P
  induction P with
  | nil => intro s _ _; rfl
  | cons t rest ih =>
      intro s hfresh hpair
      have hk : s (keyOf cfg t.2.1 t.2.2) = none :=
        hfresh t (List.mem_cons_self t rest)
      have hpc := List.pairwise_cons.mp hpair
      rw [List.map_cons]
      simp only [runPairs]
      rw [runPair_miss hk]
      cases had : adapter t.2.1 t.2.2 with
      | ok v =>
          rw [computePair_ok had (Or.inr hk)]
          simp only [had]
          congr 1
          apply ih
          · intro t2 ht2
            have hne : keyOf cfg t2.2.1 t2.2.2 ≠ keyOf cfg t.2.1 t.2.2 :=
              fun hq => hpc.1 t2 ht2 hq.symm
            show (if keyOf cfg t2.2.1 t2.2.2 = keyOf cfg t.2.1 t.2.2 then
                some (⟨v, cfg.now, t.1⟩ : ResultRecord)
              else s (keyOf cfg t2.2.1 t2.2.2)) = none
            rw [if_neg hne]
            exact hfresh t2 (List.mem_cons.mpr (Or.inr ht2))
          · exact hpc.2
      | degenerateFold =>
          rw [computePair_fail (Or.inl had)]
          simp only [had]
          congr 1
          apply ih
          · intro t2 ht2
            exact hfresh t2 (List.mem_cons.mpr (Or.inr ht2))
          · exact hpc.2
      | missingUnit =>
          rw [computePair_fail (Or.inr had)]
          simp only [had]
          congr 1
          apply ih
          · intro t2 ht2
            exact hfresh t2 (List.mem_cons.mpr (Or.inr ht2))
          · exact hpc.2

/-- C5: failure isolation.  Over an initially empty store with distinct
result keys, the ResultTable of the run is exactly the per-pair map of
each pair's own scoring outcome: a pair whose scoring fails with
DegenerateFold or MissingUnit is recorded as a failure entry (score
none) while every other pair is still scored and recorded from its own
adapter outcome alone, so one failing unit never prevents the rest of
the run. -/
theorem failure_isolation (adapter : Adapter) (suffix kind : String)
    (now : Nat) (pipes : List (String × Pipeline)) (datasets : List Dataset)
    (hkeys : (pairsOf pipes (datasets.flatMap enumerate)).Pairwise
      (fun t1 t2 => keyOf ⟨false, suffix, kind, now⟩ t1.2.1 t1.2.2 ≠
        keyOf ⟨false, suffix, kind, now⟩ t2.2.1 t2.2.2)) :
    (Engine.process adapter ⟨false, suffix, kind, now⟩ pipes datasets
        emptyStore).table =
      (pairsOf pipes (datasets.flatMap enumerate)).map (fun t =>
        match adapter t.2.1 t.2.2 with
        | ScoreOutcome.ok v =>
            ⟨t.1, t.2.2.dataset, t.2.2.subject, t.2.2.session, some v, now⟩
        | _ =>
            ⟨t.1, t.2.2.dataset, t.2.2.subject, t.2.2.session, none, now⟩) :=
  runPairs_rows_fresh (pairsOf pipes (datasets.flatMap enumerate))
    emptyStore (fun _ _ => rfl) hkeys

/-- Witness for C5: in the example run the bad session fails with
DegenerateFold for both pipelines while the good session is scored for
both. -/
theorem failure_isolation_witness :
    (Engine.process exAdapter exCfg exPipes exData emptyStore).table =
      (pairsOf exPipes (exData.flatMap enumerate)).map (fun t =>
        match exAdapter t.2.1 t.2.2 with
        | ScoreOutcome.ok v =>
            ⟨t.1, t.2.2.dataset, t.2.2.subject, t.2.2.session, some v, 5⟩
        | _ =>
            ⟨t.1, t.2.2.dataset, t.2.2.subject, t.2.2.session, none, 5⟩) :=
  failure_isolation exAdapter "examples" "WithinSession" 5 exPipes exData
    (by decide)

/-- C3: with overwrite=true the Scoring Adapter is invoked for every
scheduled (pipeline, unit) pair of the run, and at the single-pair level
a successful score always replaces the stored record for that pair's
ResultKey, regardless of whether a record already exists there. -/
theorem overwrite_semantics (adapter : Adapter) (cfg : Config)
    (pipes : List (String × Pipeline)) (datasets : List Dataset)
    (s : RStore) (hov : cfg.overwrite = true) :
    (∀ t ∈ pairsOf pipes (datasets.flatMap enumerate),
      t ∈ (Engine.process adapter cfg pipes datasets s).calls) ∧
    (∀ (s2 : RStore) (n : String) (p : Pipeline) (u : EvalUnit),
      (runPair adapter cfg s2 n p u).called = true ∧
      (∀ v, adapter p u = ScoreOutcome.ok v →
        (runPair adapter cfg s2 n p u).store (keyOf cfg p u) =
          some ⟨v, cfg.now, n⟩)) := by
  constructor
  · intro t ht
    exact runPairs_calls_all hov _ s t ht
  · intro s2 n p u
    constructor
    · exact runPair_called_of_overwrite hov s2 n p u
    · intro v had
      rw [runPair_over hov, computePair_ok had (Or.inl hov)]
      simp

/-- Witness for C3: in the example overwrite run every pair is invoked,
shown for the first scheduled pair, and the fresh record replaces the
pre-existing one at its key. -/
theorem overwrite_semantics_witness :
    ("RG + LogReg", exPipeRG, (⟨"d1", 1, "s1"⟩ : EvalUnit)) ∈
      (Engine.process exAdapter exCfgTrue exPipes exData emptyStore).calls ∧
    (runPair exAdapter exCfgTrue
        (fun q => if q = keyOf exCfgTrue exPipeRG ⟨"d1", 1, "s1"⟩
          then some ⟨0, 1, "stale"⟩ else none)
        "RG + LogReg" exPipeRG ⟨"d1", 1, "s1"⟩).store
      (keyOf exCfgTrue exPipeRG ⟨"d1", 1, "s1"⟩) =
      some ⟨1, 5, "RG + LogReg"⟩ :=
  ⟨(overwrite_semantics exAdapter exCfgTrue exPipes exData emptyStore rfl).1
      _ (by decide),
    ((overwrite_semantics exAdapter exCfgTrue exPipes exData emptyStore
      rfl).2 _ "RG + LogReg" exPipeRG ⟨"d1", 1, "s1"⟩).2 1 (by decide)⟩

theorem adapter_fail_key_absent {adapter : Adapter} {cfg : Config}
    (hsig : ∀ p q : Pipeline, signature p = signature q →
      ∀ u, adapter p u = adapter q u)
    (P : List SPair) {s : RStore} {p : Pipeline} {u : EvalUnit}
    (hfail : ∀ v, adapter p u ≠ ScoreOutcome.ok v)
    (hs : s (keyOf cfg p u) = none) :
    (runPairs adapter cfg P s).store (keyOf cfg p u) = none := by
  cases hq : (runPairs adapter cfg P s).store (keyOf cfg p u) with
  | none => rfl
  | some r =>
      exfalso
      rcases runPairs_store_sound P s _ r hq with h | ⟨t2, _, hkey, v, hv⟩
      · rw [h] at hs
        cases hs
      · obtain ⟨hsg, hu⟩ := keyOf_inj hkey
        have h3 : adapter t2.2.1 t2.2.2 = adapter p u := by
          rw [hsig t2.2.1 p hsg t2.2.2, hu]
        rw [h3] at hv
        exact hfail v hv

theorem update_self (s : RStore) (k : ResultKey) (r0 : ResultRecord) :
    (fun q => if q = k then some r0 else s q) k = some r0 := by
  simp

theorem second_run_core (adapter : Adapter) (cfg1 cfg2 : Config)
    (hov1 : cfg1.overwrite = false) (hov2 : cfg2.overwrite = false)
    (hsuf : cfg1.suffix = cfg2.suffix) (hkind : cfg1.evalKind = cfg2.evalKind)
    (hsig : ∀ p q : Pipeline, signature p = signature q →
      ∀ u, adapter p u = adapter q u) :
    ∀ (P : List SPair) (s S : RStore),
      (∀ q, S q = (runPairs adapter cfg1 P s).store q) →
      ((runPairs adapter cfg2 P S).table.map (fun r => r.score) =
        (runPairs adapter cfg1 P s).table.map (fun r => r.score)) ∧
      (∀ q, (runPairs adapter cfg2 P S).store q = S q) ∧
      (∀ t ∈ P, (S (keyOf cfg1 t.2.1 t.2.2)).isSome = true →
        t ∉ (runPairs adapter cfg2 P S).calls) := by
  intro P
  induction P with
  | nil =>
      intro s S hS
      refine ⟨rfl, fun q => rfl, ?_⟩
      intro t ht
      cases ht
  | cons t0 rest ih =>
      intro s S hS
      obtain ⟨n, p, u⟩ := t0
      have hkey12 : keyOf cfg2 p u = keyOf cfg1 p u :=
        (keyOf_congr hsuf hkind p u).symm
      cases hSk : S (keyOf cfg1 p u) with
      | some r =>
          have h2c : runPair adapter cfg2 S n p u =
              ⟨⟨n, u.dataset, u.subject, u.session, some r.metric, r.timestamp⟩,
                S, false⟩ :=
            runPair_cached hov2 (by rw [hkey12]; exact hSk)
          cases hsk : s (keyOf cfg1 p u) with
          | some r0 =>
              have h1c : runPair adapter cfg1 s n p u =
                  ⟨⟨n, u.dataset, u.subject, u.session, some r0.metric,
                    r0.timestamp⟩, s, false⟩ :=
                runPair_cached hov1 hsk
              have hS2 : ∀ q, S q = (runPairs adapter cfg1 rest s).store q := by
                intro q
                have hq := hS q
                simp only [runPairs] at hq
                rw [h1c] at hq
                exact hq
              obtain ⟨ihtab, ihstore, ihcalls⟩ := ih s S hS2
              have hfin : (runPairs adapter cfg1 rest s).store
                  (keyOf cfg1 p u) = some r0 :=
                runPairs_store_mono hov1 rest s _ r0 hsk
              have hr : r = r0 := by
                have hx := hS2 (keyOf cfg1 p u)
                rw [hSk, hfin] at hx
                exact Option.some.inj hx
              refine ⟨?_, ?_, ?_⟩
              · simp only [runPairs, List.map_cons]
                rw [h1c, h2c]
                refine congrArg₂ List.cons ?_ ?_
                · show some r.metric = some r0.metric
                  rw [hr]
                · exact ihtab
              · intro q
                simp only [runPairs]
                rw [h2c]
                exact ihstore q
              · intro t ht hsome hmem
                simp only [runPairs] at hmem
                rw [h2c] at hmem
                have hmem2 : t ∈ (runPairs adapter cfg2 rest S).calls := by
                  simpa using hmem
                have htr := runPairs_calls_subset rest S t hmem2
                exact ihcalls t htr hsome hmem2
          | none =>
              have h1m : runPair adapter cfg1 s n p u =
                  computePair adapter cfg1 s n p u := runPair_miss hsk
              cases had : adapter p u with
              | ok v =>
                  have h1c : computePair adapter cfg1 s n p u =
                      ⟨⟨n, u.dataset, u.subject, u.session, some v, cfg1.now⟩,
                        (fun q => if q = keyOf cfg1 p u then
                          some ⟨v, cfg1.now, n⟩ else s q), true⟩ :=
                    computePair_ok had (Or.inr hsk)
                  have hS2 : ∀ q, S q = (runPairs adapter cfg1 rest
                      (fun q2 => if q2 = keyOf cfg1 p u then
                        some ⟨v, cfg1.now, n⟩ else s q2)).store q := by
                    intro q
                    have hq := hS q
                    simp only [runPairs] at hq
                    rw [h1m, h1c] at hq
                    exact hq
                  obtain ⟨ihtab, ihstore, ihcalls⟩ := ih _ S hS2
                  have hfin : (runPairs adapter cfg1 rest
                      (fun q2 => if q2 = keyOf cfg1 p u then
                        some ⟨v, cfg1.now, n⟩ else s q2)).store
                      (keyOf cfg1 p u) = some ⟨v, cfg1.now, n⟩ :=
                    runPairs_store_mono hov1 rest _ _ _
                      (update_self s (keyOf cfg1 p u) ⟨v, cfg1.now, n⟩)
                  have hr : r = ⟨v, cfg1.now, n⟩ := by
                    have hx := hS2 (keyOf cfg1 p u)
                    rw [hSk, hfin] at hx
                    exact Option.some.inj hx
                  refine ⟨?_, ?_, ?_⟩
                  · simp only [runPairs, List.map_cons]
                    rw [h1m, h1c, h2c]
                    refine congrArg₂ List.cons ?_ ?_
                    · show some r.metric = some v
                      rw [hr]
                    · exact ihtab
                  · intro q
                    simp only [runPairs]
                    rw [h2c]
                    exact ihstore q
                  · intro t ht hsome hmem
                    simp only [runPairs] at hmem
                    rw [h2c] at hmem
                    have hmem2 : t ∈ (runPairs adapter cfg2 rest S).calls := by
                      simpa using hmem
                    have htr := runPairs_calls_subset rest S t hmem2
                    exact ihcalls t htr hsome hmem2
              | degenerateFold =>
                  exfalso
                  have h1f : computePair adapter cfg1 s n p u =
                      ⟨⟨n, u.dataset, u.subject, u.session, none, cfg1.now⟩,
                        s, true⟩ :=
                    computePair_fail (Or.inl had)
                  have hfail : ∀ v, adapter p u ≠ ScoreOutcome.ok v := by
                    intro v hv
                    rw [had] at hv
                    cases hv
                  have habs : (runPairs adapter cfg1 rest s).store
                      (keyOf cfg1 p u) = none :=
                    adapter_fail_key_absent hsig rest hfail hsk
                  have hnone : S (keyOf cfg1 p u) = none := by
                    have hq := hS (keyOf cfg1 p u)
                    simp only [runPairs] at hq
                    rw [h1m, h1f] at hq
                    rw [hq]
                    exact habs
                  rw [hSk] at hnone
                  cases hnone
              | missingUnit =>
                  exfalso
                  have h1f : computePair adapter cfg1 s n p u =
                      ⟨⟨n, u.dataset, u.subject, u.session, none, cfg1.now⟩,
                        s, true⟩ :=
                    computePair_fail (Or.inr had)
                  have hfail : ∀ v, adapter p u ≠ ScoreOutcome.ok v := by
                    intro v hv
                    rw [had] at hv
                    cases hv
                  have habs : (runPairs adapter cfg1 rest s).store
                      (keyOf cfg1 p u) = none :=
                    adapter_fail_key_absent hsig rest hfail hsk
                  have hnone : S (keyOf cfg1 p u) = none := by
                    have hq := hS (keyOf cfg1 p u)
                    simp only [runPairs] at hq
                    rw [h1m, h1f] at hq
                    rw [hq]
                    exact habs
                  rw [hSk] at hnone
                  cases hnone
      | none =>
          have hsfinN : (runPairs adapter cfg1 ((n, p, u) :: rest) s).store
              (keyOf cfg1 p u) = none := by
            rw [← hS (keyOf cfg1 p u)]
            exact hSk
          have hsk : s (keyOf cfg1 p u) = none := by
            cases hq : s (keyOf cfg1 p u) with
            | none => rfl
            | some r0 =>
                exfalso
                have h1c : runPair adapter cfg1 s n p u =
                    ⟨⟨n, u.dataset, u.subject, u.session, some r0.metric,
                      r0.timestamp⟩, s, false⟩ :=
                  runPair_cached hov1 hq
                have hx := hsfinN
                simp only [runPairs] at hx
                rw [h1c] at hx
                have hx2 : (runPairs adapter cfg1 rest s).store
                    (keyOf cfg1 p u) = none := hx
                rw [runPairs_store_mono hov1 rest s _ r0 hq] at hx2
                cases hx2
          have hfail : ∀ v, adapter p u ≠ ScoreOutcome.ok v := by
            intro v hv
            have h1m : runPair adapter cfg1 s n p u =
                computePair adapter cfg1 s n p u := runPair_miss hsk
            have h1c : computePair adapter cfg1 s n p u =
                ⟨⟨n, u.dataset, u.subject, u.session, some v, cfg1.now⟩,
                  (fun q => if q = keyOf cfg1 p u then
                    some ⟨v, cfg1.now, n⟩ else s q), true⟩ :=
              computePair_ok hv (Or.inr hsk)
            have hx := hsfinN
            simp only [runPairs] at hx
            rw [h1m, h1c] at hx
            have hx2 : (runPairs adapter cfg1 rest
                (fun q2 => if q2 = keyOf cfg1 p u then
                  some ⟨v, cfg1.now, n⟩ else s q2)).store
                (keyOf cfg1 p u) = none := hx
            rw [runPairs_store_mono hov1 rest _ _ _
              (update_self s (keyOf cfg1 p u) ⟨v, cfg1.now, n⟩)] at hx2
            cases hx2
          have h1row : runPair adapter cfg1 s n p u =
              ⟨⟨n, u.dataset, u.subject, u.session, none, cfg1.now⟩, s,
                true⟩ := by
            rw [runPair_miss hsk]
            cases had : adapter p u with
            | ok v => exact absurd had (hfail v)
            | degenerateFold => exact computePair_fail (Or.inl had)
            | missingUnit => exact computePair_fail (Or.inr had)
          have h2row : runPair adapter cfg2 S n p u =
              ⟨⟨n, u.dataset, u.subject, u.session, none, cfg2.now⟩, S,
                true⟩ := by
            rw [runPair_miss (by rw [hkey12]; exact hSk)]
            cases had : adapter p u with
            | ok v => exact absurd had (hfail v)
            | degenerateFold => exact computePair_fail (Or.inl had)
            | missingUnit => exact computePair_fail (Or.inr had)
          have hS2 : ∀ q, S q = (runPairs adapter cfg1 rest s).store q := by
            intro q
            have hq := hS q
            simp only [runPairs] at hq
            rw [h1row] at hq
            exact hq
          obtain ⟨ihtab, ihstore, ihcalls⟩ := ih s S hS2
          refine ⟨?_, ?_, ?_⟩
          · simp only [runPairs, List.map_cons]
            rw [h1row, h2row]
            refine congrArg₂ List.cons ?_ ?_
            · rfl
            · exact ihtab
          · intro q
            simp only [runPairs]
            rw [h2row]
            exact ihstore q
          · intro t ht hsome hmem
            simp only [runPairs] at hmem
            rw [h2row] at hmem
            have hmem2 : t ∈ ((n, p, u) ::
                (runPairs adapter cfg2 rest S).calls : List SPair) := by
              simpa using hmem
            rcases List.mem_cons.mp hmem2 with rfl | hmem3
            · rw [hSk] at hsome
              exact Bool.noConfusion hsome
            · have htr := runPairs_calls_subset rest S t hmem3
              exact ihcalls t htr hsome hmem3

/-- C1: cache correctness.  For any pipelines and datasets, running the
Engine twice with overwrite=false over an initially empty store, with a
scoring adapter that is a function of the pipeline signature and the
unit, gives a second-run ResultTable with metric values identical to the
first run's, leaves the store unchanged, and never invokes the Scoring
Adapter on the second run for a pair whose ResultKey was recorded in the
store by the first run. -/
theorem cache_correctness (adapter : Adapter)
    (pipes : List (String × Pipeline)) (datasets : List Dataset)
    (suffix kind : String) (now1 now2 : Nat)
    (hsig : ∀ p q : Pipeline, signature p = signature q →
      ∀ u, adapter p u = adapter q u) :
    ((Engine.process adapter ⟨false, suffix, kind, now2⟩ pipes datasets
        (Engine.process adapter ⟨false, suffix, kind, now1⟩ pipes datasets
          emptyStore).store).table.map (fun r => r.score) =
      (Engine.process adapter ⟨false, suffix, kind, now1⟩ pipes datasets
        emptyStore).table.map (fun r => r.score)) ∧
    (∀ q, (Engine.process adapter ⟨false, suffix, kind, now2⟩ pipes datasets
        (Engine.process adapter ⟨false, suffix, kind, now1⟩ pipes datasets
          emptyStore).store).store q =
      (Engine.process adapter ⟨false, suffix, kind, now1⟩ pipes datasets
        emptyStore).store q) ∧
    (∀ t ∈ pairsOf pipes (datasets.flatMap enumerate),
      ((Engine.process adapter ⟨false, suffix, kind, now1⟩ pipes datasets
          emptyStore).store
        (keyOf ⟨false, suffix, kind, now1⟩ t.2.1 t.2.2)).isSome = true →
      t ∉ (Engine.process adapter ⟨false, suffix, kind, now2⟩ pipes datasets
        (Engine.process adapter ⟨false, suffix, kind, now1⟩ pipes datasets
          emptyStore).store).calls) :=
  second_run_core adapter ⟨false, suffix, kind, now1⟩
    ⟨false, suffix, kind, now2⟩ rfl rfl rfl rfl hsig
    (pairsOf pipes (datasets.flatMap enumerate)) emptyStore
    (Engine.process adapter ⟨false, suffix, kind, now1⟩ pipes datasets
      emptyStore).store (fun _ => rfl)

/-- Witness for C1: the example engine re-run at a later clock
reproduces the metric column, and the first pair, recorded by the first
run, is not re-scored. -/
theorem cache_correctness_witness :
    ((Engine.process exAdapter ⟨false, "examples", "WithinSession", 7⟩
        exPipes exData (Engine.process exAdapter
          ⟨false, "examples", "WithinSession", 5⟩ exPipes exData
            emptyStore).store).table.map (fun r => r.score) =
      (Engine.process exAdapter ⟨false, "examples", "WithinSession", 5⟩
        exPipes exData emptyStore).table.map (fun r => r.score)) ∧
    ("RG + LogReg", exPipeRG, (⟨"d1", 1, "s1"⟩ : EvalUnit)) ∉
      (Engine.process exAdapter ⟨false, "examples", "WithinSession", 7⟩
        exPipes exData (Engine.process exAdapter
          ⟨false, "examples", "WithinSession", 5⟩ exPipes exData
            emptyStore).store).calls := by
  have hsig : ∀ p q : Pipeline, signature p = signature q →
      ∀ u, exAdapter p u = exAdapter q u := by
    intro p q hpq u
    have hlen : p.length = q.length := by
      have := congrArg List.length hpq
      simpa [signature] using this
    simp only [exAdapter]
    rw [hlen]
  have h := cache_correctness exAdapter exPipes exData "examples"
    "WithinSession" 5 7 hsig
  exact ⟨h.1, h.2.2 ("RG + LogReg", exPipeRG, ⟨"d1", 1, "s1"⟩) (by decide)
    (by decide)⟩
